import Mathlib

/-!
Verification of `scripts/font_spritesheet_generator.py`.

The script is shallowly embedded: filesystem probing, font loading and glyph
measurement are abstracted as oracles (`String → Bool` for `os.path.exists`,
a `FontOracle` for `ImageFont.truetype` / `textbbox`), while the control flow,
arithmetic and dictionary handling of the script are translated directly.
Machine floats are modelled by exact rationals; Python's `round(x, 6)` is
modelled by rounding `x * 10^6` to the nearest integer.
-/

set_option autoImplicit false

namespace FontSheet

/-- `CELL_SIZE = 16`, the fixed 16x16 cell size of the generator. -/
def CELL_SIZE : Nat := 16

/-! ### FontLocator: `find_system_font` -/

/-- The ordered candidate list `font_paths` built at the top of
`find_system_font`, with Python f-strings expanded to concatenation. -/
def font_paths (font_name : String) : List String :=
  [ "/usr/share/fonts/truetype/" ++ font_name.toLower ++ "/" ++ font_name ++ ".ttf"
  , "/usr/share/fonts/truetype/" ++ font_name.toLower ++ ".ttf"
  , "/usr/share/fonts/TTF/" ++ font_name ++ ".ttf"
  , "/System/Library/Fonts/" ++ font_name ++ ".ttf"
  , "C:\\Windows\\Fonts\\" ++ font_name ++ ".ttf"
  , "/usr/share/fonts/truetype/dejavu/DejaVu" ++ font_name ++ ".ttf"
  , "/usr/share/fonts/truetype/liberation/Liberation" ++ font_name ++ ".ttf" ]

/-- The possible outcomes of `find_system_font`: an existing path is returned,
or the Pillow default font is returned, or a `ValueError` is raised. -/
inductive FontChoice where
  | path (p : String)
  | defaultFont
  | failure (msg : String)
deriving DecidableEq

/-- `find_system_font`, parametrised by the filesystem oracle `fsExists`
(for `os.path.exists`) and by whether `ImageFont.load_default()` succeeds.
The second component counts the `Warning:` lines printed. -/
def find_system_font (fsExists : String → Bool) (defaultOk : Bool)
    (font_name : String) : FontChoice × Nat :=
  if fsExists font_name then (.path font_name, 0)
  else
    match (font_paths font_name).find? fsExists with
    | some p => (.path p, 0)
    | none =>
        if defaultOk then (.defaultFont, 1)
        else (.failure ("Could not find font: " ++ font_name), 1)

/-! ### SizeFitter: `calculate_optimal_font_size` -/

/-- The `test_chars` string of `calculate_optimal_font_size`. -/
def test_chars : String :=
  "ABCDEFGHIJKLMNOPQRSTUVWXYZabcdefghijklmnopqrstuvwxyz0123456789Wm@#"

/-- `test_chars[:10]`, the glyphs actually measured at each candidate size. -/
def probeChars : List Char := test_chars.toList.take 10

/-- Oracle for Pillow's behaviour on one font file: whether
`ImageFont.truetype(path, size)` (together with the measurement of the probe
characters) succeeds, and the width `bbox[2]-bbox[0]` and height
`bbox[3]-bbox[1]` that `textbbox` reports for a character at a size. -/
structure FontOracle where
  loadOk : Nat → Bool
  bboxW : Nat → Char → ℤ
  bboxH : Nat → Char → ℤ

/-- `max_width` after the measuring loop: the running maximum (initialised
to 0) of the probe characters' widths. -/
def maxProbeWidth (o : FontOracle) (size : Nat) : ℤ :=
  (probeChars.map (o.bboxW size)).foldl max 0

/-- `max_height` after the measuring loop. -/
def maxProbeHeight (o : FontOracle) (size : Nat) : ℤ :=
  (probeChars.map (o.bboxH size)).foldl max 0

/-- The acceptance test `max_width <= max_fit_size and max_height <= max_fit_size`. -/
def fitsAt (o : FontOracle) (size : Nat) (maxFit : ℤ) : Bool :=
  decide (maxProbeWidth o size ≤ maxFit) && decide (maxProbeHeight o size ≤ maxFit)

/-- One loop iteration of the fitter succeeds at `size`: the font loads and
measures there, and the probe maxima fit. `target` is `target_size`. -/
def goodSize (o : FontOracle) (target : Nat) (size : Nat) : Bool :=
  o.loadOk size && fitsAt o size ((target : ℤ) - 4)

/-- `range(initial_size, 4, -1)`: the candidate sizes, strictly decreasing
from `initial_size` down to 5. -/
def candidate_sizes (n : Nat) : List Nat :=
  if 5 ≤ n then n :: candidate_sizes (n - 1) else []
termination_by n
decreasing_by omega

/-- The font object returned by the fitter: a FreeType font loaded at a size,
or the non-scalable default font. -/
inductive FittedFont where
  | truetype (size : Nat)
  | defaultFont
deriving DecidableEq

/-- `calculate_optimal_font_size`, parametrised by the font oracle.
`scalable` is the `isinstance(font_path, str)` test; `target` is
`target_size` (defaulting to `CELL_SIZE` at the call site).
For a scalable path the loop accepts the first candidate size that loads and
fits; otherwise the fallback loads size 8, degrading to the default font. -/
def calculate_optimal_font_size (o : FontOracle) (scalable : Bool)
    (initial target : Nat) : FittedFont × Nat :=
  if scalable then
    match (candidate_sizes initial).find? (goodSize o target) with
    | some s => (.truetype s, s)
    | none => if o.loadOk 8 then (.truetype 8, 8) else (.defaultFont, 8)
  else
    if 5 ≤ initial then (.defaultFont, 10) else (.defaultFont, 8)

/-! ### GridPacker geometry -/

/-- `rows = math.ceil(num_chars / columns)`. -/
def numRows (n columns : Nat) : Nat :=
  (Int.ceil ((n : ℚ) / (columns : ℚ))).toNat

/-- `img_width = columns * CELL_SIZE`. -/
def imageWidth (columns : Nat) : Nat := columns * CELL_SIZE

/-- `img_height = rows * CELL_SIZE`. -/
def imageHeight (n columns : Nat) : Nat := numRows n columns * CELL_SIZE

/-! ### Per-character metadata -/

/-- Python's `round(x, 6)`: round to the nearest multiple of `10^-6`. -/
def round6 (q : ℚ) : ℚ := (round (q * 1000000) : ℚ) / 1000000

/-- One value of `character_map`: the record stored for a character. -/
structure Glyph where
  index : Nat
  x : Nat
  y : Nat
  u0 : ℚ
  v0 : ℚ
  u1 : ℚ
  v1 : ℚ
deriving DecidableEq

/-- The record built in the render loop for the character at position `i`:
`col = i % columns`, `row = i // columns`, pixel cell origin, and UV ratios
rounded to 6 decimal digits. -/
def mkGlyph (i columns imgW imgH : Nat) : Glyph :=
  { index := i
  , x := (i % columns) * CELL_SIZE
  , y := (i / columns) * CELL_SIZE
  , u0 := round6 ((((i % columns) * CELL_SIZE : Nat) : ℚ) / (imgW : ℚ))
  , v0 := round6 ((((i / columns) * CELL_SIZE : Nat) : ℚ) / (imgH : ℚ))
  , u1 := round6 ((((i % columns) * CELL_SIZE + CELL_SIZE : Nat) : ℚ) / (imgW : ℚ))
  , v1 := round6 ((((i / columns) * CELL_SIZE + CELL_SIZE : Nat) : ℚ) / (imgH : ℚ)) }

/-- Python dictionary assignment `character_map[char] = glyph` on an
association list with unique keys: overwrite in place, else append. -/
def insertEntry : List (Char × Glyph) → Char → Glyph → List (Char × Glyph)
  | [], c, g => [(c, g)]
  | p :: m, c, g => if p.1 = c then (c, g) :: m else p :: insertEntry m c g

/-- Dictionary read `character_map[c]`. -/
def mapLookup (m : List (Char × Glyph)) (c : Char) : Option Glyph :=
  (m.find? (fun p => p.1 == c)).map Prod.snd

/-- The render loop over `enumerate(character_set)`, parametrised by the
oracle `renderOk` saying whether `draw.text` succeeds for a character.
Returns the characters actually drawn onto the canvas (in order) and the
final `character_map`. -/
def render_loop (renderOk : Char → Bool) (cs : List Char) (columns : Nat) :
    List Char × List (Char × Glyph) :=
  cs.enum.foldl
    (fun acc p =>
      ( (if renderOk p.2 then acc.1 ++ [p.2] else acc.1)
      , insertEntry acc.2 p.2
          (mkGlyph p.1 columns (imageWidth columns) (imageHeight cs.length columns)) ))
    ([], [])

/-- The `character_map` produced by the render loop (its contents do not
depend on the draw oracle, a fact proved below). -/
def characterMapList (cs : List Char) (columns : Nat) : List (Char × Glyph) :=
  (render_loop (fun _ => true) cs columns).2

/-- The `metadata` dictionary written to the sidecar JSON (the fields that
carry data; `font_name` is the input string and is omitted). -/
structure AtlasMetadata where
  font_size : Nat
  cell_width : Nat
  cell_height : Nat
  columns : Nat
  rows : Nat
  image_width : Nat
  image_height : Nat
  character_count : Nat
  character_map : List (Char × Glyph)
deriving DecidableEq

/-- The metadata record built by `generate_sprite_sheet` from the character
set, the column count and the size resolved by the fitter. -/
def generate_metadata (renderOk : Char → Bool) (cs : List Char)
    (columns actual_size : Nat) : AtlasMetadata :=
  { font_size := actual_size
  , cell_width := CELL_SIZE
  , cell_height := CELL_SIZE
  , columns := columns
  , rows := numRows cs.length columns
  , image_width := imageWidth columns
  , image_height := imageHeight cs.length columns
  , character_count := cs.length
  , character_map := (render_loop renderOk cs columns).2 }

/-- The key list of a character-map dictionary (Python `dict` keys, in
first-insertion order). -/
def mapKeys (m : List (Char × Glyph)) : List Char := m.map Prod.fst

/-- The map part of the render loop, as plain recursion over the enumerated
character list: the loop body's effect on `character_map` alone. -/
def buildMap (columns imgW imgH : Nat) :
    List (Char × Glyph) → List (Nat × Char) → List (Char × Glyph)
  | m, [] => m
  | m, e :: es =>
      buildMap columns imgW imgH (insertEntry m e.2 (mkGlyph e.1 columns imgW imgH)) es

/-- A font whose probe glyphs measure 10x5 up to size 10 and 20x20 above:
its largest fitting size for a 16-pixel cell is 10. -/
def fitOracle : FontOracle :=
  { loadOk := fun _ => true
  , bboxW := fun s _ => if s ≤ 10 then 10 else 20
  , bboxH := fun s _ => if s ≤ 10 then 5 else 20 }

/-- A font whose probe glyphs always measure 100x100: nothing fits in a
16-pixel cell, so the fitter must take its floor-size fallback. -/
def bigOracle : FontOracle :=
  { loadOk := fun _ => true
  , bboxW := fun _ _ => 100
  , bboxH := fun _ _ => 100 }

/-- A filesystem on which exactly one candidate font path exists. -/
def fooFS : String → Bool := fun s => s == "/usr/share/fonts/TTF/Foo.ttf"

/-! ### Helper lemmas: grid geometry -/

theorem ceilDivNat_le_iff (n c k : Nat) (hc : 1 ≤ c) :
    (n + c - 1) / c ≤ k ↔ n ≤ c * k := by
  have h := ceilDiv_le_iff_le_mul (α := ℕ) (a := c) (b := n) (c := k)
    (by omega : 0 < c)
  rwa [Nat.ceilDiv_eq_add_pred_div] at h

theorem ceilDivNat_ge (n c : Nat) (hc : 1 ≤ c) : n ≤ c * ((n + c - 1) / c) :=
  (ceilDivNat_le_iff n c _ hc).mp le_rfl

theorem numRows_eq (n c : Nat) (hc : 1 ≤ c) : numRows n c = (n + c - 1) / c := by
  have hc0 : (0 : ℚ) < (c : ℚ) := by exact_mod_cast hc
  set q : ℕ := (n + c - 1) / c with hqdef
  have hceil : Int.ceil ((n : ℚ) / (c : ℚ)) = ((q : ℕ) : ℤ) := by
    rw [Int.ceil_eq_iff]
    refine ⟨?_, ?_⟩
    · rcases Nat.eq_zero_or_pos q with hq | hq
      · rw [hq]
        have hnn : (0 : ℚ) ≤ (n : ℚ) / (c : ℚ) := by positivity
        push_cast
        linarith
      · have hlt : c * (q - 1) < n := by
          by_contra hle
          have := (ceilDivNat_le_iff n c (q - 1) hc).mpr (by omega)
          omega
        have hltq : ((c * (q - 1) : ℕ) : ℚ) < ((n : ℕ) : ℚ) := by
          exact_mod_cast hlt
        push_cast [Nat.cast_sub hq] at hltq
        rw [lt_div_iff hc0]
        push_cast
        nlinarith
    · rw [div_le_iff hc0]
      have h := ceilDivNat_ge n c hc
      have hq : ((n : ℕ) : ℚ) ≤ ((c * q : ℕ) : ℚ) := by exact_mod_cast h
      push_cast at hq ⊢
      nlinarith
  rw [numRows, hceil, Int.toNat_natCast]

theorem numRows_pos (n c : Nat) (hn : 1 ≤ n) (hc : 1 ≤ c) : 1 ≤ numRows n c := by
  rw [numRows_eq n c hc]
  rcases Nat.eq_zero_or_pos ((n + c - 1) / c) with h0 | h0
  · have := ceilDivNat_ge n c hc
    rw [h0] at this
    omega
  · exact h0

theorem lt_numRows_mul (n c i : Nat) (hc : 1 ≤ c) (hi : i < n) :
    i / c < numRows n c := by
  rw [numRows_eq n c hc]
  by_contra h
  have hle : (n + c - 1) / c ≤ i / c := by omega
  have := (ceilDivNat_le_iff n c (i / c) hc).mp hle
  have hdiv : c * (i / c) ≤ i := by
    calc c * (i / c) = i / c * c := Nat.mul_comm _ _
      _ ≤ i := Nat.div_mul_le_self i c
  omega

theorem numRows_le (n c b : Nat) (hc : 1 ≤ c) (hn : n ≤ c * b) :
    numRows n c ≤ b := by
  rw [numRows_eq n c hc]
  exact (ceilDivNat_le_iff n c b hc).mpr hn

/-! ### Helper lemmas: rounding to 6 decimal digits -/

theorem round6_le_round6 {p q : ℚ} (h : p ≤ q) : round6 p ≤ round6 q := by
  rw [round6, round6]
  have h1 := round_le_add_half (p * 1000000)
  have h2 := sub_half_lt_round (q * 1000000)
  have hz : round (p * 1000000) < round (q * 1000000) + 1 := by
    have hcast : ((round (p * 1000000) : ℤ) : ℚ) <
        ((round (q * 1000000) : ℤ) : ℚ) + 1 := by linarith
    exact_mod_cast hcast
  have hz' : round (p * 1000000) ≤ round (q * 1000000) := by omega
  have hfin : ((round (p * 1000000) : ℤ) : ℚ) ≤ ((round (q * 1000000) : ℤ) : ℚ) := by
    exact_mod_cast hz'
  linarith

theorem round6_lt_round6 {p q : ℚ} (h : p + 1 / 1000000 ≤ q) :
    round6 p < round6 q := by
  rw [round6, round6]
  have h1 := round_le_add_half (p * 1000000)
  have h2 := sub_half_lt_round (q * 1000000)
  have hz : round (p * 1000000) < round (q * 1000000) := by
    have : (round (p * 1000000) : ℚ) < round (q * 1000000) := by nlinarith
    exact_mod_cast this
  have hq : ((round (p * 1000000) : ℤ) : ℚ) < ((round (q * 1000000) : ℤ) : ℚ) := by
    exact_mod_cast hz
  linarith

theorem round6_zero : round6 0 = 0 := by
  rw [round6]
  norm_num

theorem round6_one : round6 1 = 1 := by
  rw [round6]
  rw [show ((1 : ℚ) * 1000000) = ((1000000 : ℤ) : ℚ) by norm_num, round_intCast]
  norm_num

theorem abs_round6_sub (q : ℚ) : |round6 q - q| ≤ 1 / 2000000 := by
  rw [round6]
  have h1 := round_le_add_half (q * 1000000)
  have h2 := sub_half_lt_round (q * 1000000)
  rw [abs_le]
  constructor <;> nlinarith

/-! ### Helper lemmas: the candidate-size list and its search -/

theorem mem_candidate_sizes (n s : Nat) : s ∈ candidate_sizes n ↔ 5 ≤ s ∧ s ≤ n := by
  induction n using Nat.strong_induction_on with
  | _ n ih =>
    rw [candidate_sizes]
    by_cases h : 5 ≤ n
    · rw [if_pos h, List.mem_cons, ih (n - 1) (by omega)]
      omega
    · rw [if_neg h]
      simp only [List.not_mem_nil, false_iff]
      omega

theorem find?_candidate_sizes (p : Nat → Bool) (s : Nat) :
    ∀ n, s ∈ candidate_sizes n → p s = true →
      (∀ t, t ∈ candidate_sizes n → s < t → p t = false) →
      (candidate_sizes n).find? p = some s := by
  intro n
  induction n using Nat.strong_induction_on with
  | _ n ih =>
    intro hmem hp hmax
    have hself : 5 ≤ n → n ∈ candidate_sizes n := fun h5 => by
      rw [candidate_sizes, if_pos h5]
      exact List.mem_cons_self _ _
    rw [candidate_sizes] at hmem ⊢
    by_cases h5 : 5 ≤ n
    · rw [if_pos h5] at hmem ⊢
      rcases List.mem_cons.mp hmem with rfl | htail
      · exact List.find?_cons_of_pos _ hp
      · have hsn : s < n := by
          have hs := (mem_candidate_sizes (n - 1) s).mp htail
          omega
        have hpn : p n = false := hmax n (hself h5) hsn
        rw [List.find?_cons_of_neg _ (by rw [hpn]; exact Bool.false_ne_true)]
        refine ih (n - 1) (by omega) htail hp ?_
        intro t ht hst
        refine hmax t ?_ hst
        rw [candidate_sizes, if_pos h5]
        exact List.mem_cons_of_mem _ ht
    · rw [if_neg h5] at hmem
      exact absurd hmem (List.not_mem_nil s)

theorem find?_candidate_sizes_none (p : Nat → Bool) (n : Nat)
    (h : ∀ s, s ∈ candidate_sizes n → p s = false) :
    (candidate_sizes n).find? p = none := by
  rw [List.find?_eq_none]
  intro x hx
  rw [h x hx]
  exact Bool.false_ne_true

/-! ### Helper lemmas: running maxima -/

theorem foldl_max_init (l : List ℤ) (a : ℤ) : a ≤ l.foldl max a := by
  induction l generalizing a with
  | nil => exact le_refl a
  | cons b t ih =>
    calc a ≤ max a b := le_max_left _ _
      _ ≤ t.foldl max (max a b) := ih _

theorem le_foldl_max (l : List ℤ) (a x : ℤ) (hx : x ∈ l) : x ≤ l.foldl max a := by
  induction l generalizing a with
  | nil => exact absurd hx (List.not_mem_nil x)
  | cons b t ih =>
    rcases List.mem_cons.mp hx with rfl | hmem
    · calc x ≤ max a x := le_max_right a x
        _ ≤ t.foldl max (max a x) := foldl_max_init t _
    · exact ih (max a b) hmem

/-! ### Helper lemmas: dictionary assignment -/

theorem mapLookup_nil (d : Char) : mapLookup [] d = none := rfl

theorem mapLookup_cons (p : Char × Glyph) (m : List (Char × Glyph)) (d : Char) :
    mapLookup (p :: m) d = if p.1 = d then some p.2 else mapLookup m d := by
  by_cases h : p.1 = d
  · rw [if_pos h, mapLookup, List.find?_cons_of_pos _ (by simp [h])]
    rfl
  · rw [if_neg h, mapLookup, List.find?_cons_of_neg _ (by simp [h])]
    rfl

theorem mapKeys_cons (p : Char × Glyph) (m : List (Char × Glyph)) :
    mapKeys (p :: m) = p.1 :: mapKeys m := rfl

theorem mapLookup_insertEntry (m : List (Char × Glyph)) (c : Char) (g : Glyph)
    (d : Char) :
    mapLookup (insertEntry m c g) d = if d = c then some g else mapLookup m d := by
  induction m with
  | nil =>
    by_cases hdc : d = c
    · rw [insertEntry, mapLookup_cons, if_pos hdc.symm, if_pos hdc]
    · rw [insertEntry, mapLookup_cons, if_neg (fun h => hdc h.symm), if_neg hdc]
  | cons p m ih =>
    by_cases hpc : p.1 = c
    · rw [insertEntry, if_pos hpc]
      by_cases hdc : d = c
      · rw [mapLookup_cons, if_pos hdc.symm, if_pos hdc]
      · have hpd : ¬ p.1 = d := by
          rw [hpc]
          exact fun h => hdc h.symm
        rw [mapLookup_cons, if_neg (fun h => hdc h.symm), if_neg hdc,
          mapLookup_cons, if_neg hpd]
    · rw [insertEntry, if_neg hpc]
      by_cases hpd : p.1 = d
      · have hdc : ¬ d = c := fun h => hpc (hpd.trans h)
        rw [mapLookup_cons, if_pos hpd, if_neg hdc, mapLookup_cons, if_pos hpd]
      · rw [mapLookup_cons, if_neg hpd, ih]
        by_cases hdc : d = c
        · rw [if_pos hdc, if_pos hdc]
        · rw [if_neg hdc, if_neg hdc, mapLookup_cons, if_neg hpd]

theorem mapKeys_insertEntry (m : List (Char × Glyph)) (c : Char) (g : Glyph) :
    mapKeys (insertEntry m c g) =
      if c ∈ mapKeys m then mapKeys m else mapKeys m ++ [c] := by
  induction m with
  | nil =>
    rw [insertEntry, if_neg (by simp [mapKeys])]
    rfl
  | cons p m ih =>
    by_cases hpc : p.1 = c
    · rw [insertEntry, if_pos hpc,
        if_pos (by rw [mapKeys_cons, hpc]; exact List.mem_cons_self _ _)]
      rw [mapKeys_cons, mapKeys_cons, hpc]
    · have hmem : c ∈ mapKeys (p :: m) ↔ c ∈ mapKeys m := by
        rw [mapKeys_cons, List.mem_cons]
        constructor
        · rintro (h | h)
          · exact absurd h.symm hpc
          · exact h
        · exact Or.inr
      rw [insertEntry, if_neg hpc, mapKeys_cons, ih]
      by_cases hc : c ∈ mapKeys m
      · rw [if_pos hc, if_pos (hmem.mpr hc), mapKeys_cons]
      · rw [if_neg hc, if_neg (fun h => hc (hmem.mp h)), mapKeys_cons,
          List.cons_append]

theorem mem_mapKeys_insertEntry (m : List (Char × Glyph)) (c : Char) (g : Glyph)
    (d : Char) :
    d ∈ mapKeys (insertEntry m c g) ↔ d ∈ mapKeys m ∨ d = c := by
  rw [mapKeys_insertEntry]
  by_cases hc : c ∈ mapKeys m
  · rw [if_pos hc]
    constructor
    · exact Or.inl
    · rintro (h | rfl)
      · exact h
      · exact hc
  · rw [if_neg hc, List.mem_append, List.mem_singleton]

theorem nodup_mapKeys_insertEntry (m : List (Char × Glyph)) (c : Char) (g : Glyph)
    (hm : (mapKeys m).Nodup) : (mapKeys (insertEntry m c g)).Nodup := by
  rw [mapKeys_insertEntry]
  by_cases hc : c ∈ mapKeys m
  · rwa [if_pos hc]
  · rw [if_neg hc, List.nodup_append]
    refine ⟨hm, List.nodup_singleton c, ?_⟩
    intro x hx hxc
    rw [List.mem_singleton] at hxc
    exact hc (hxc ▸ hx)

theorem length_insertEntry (m : List (Char × Glyph)) (c : Char) (g : Glyph) :
    (insertEntry m c g).length =
      if c ∈ mapKeys m then m.length else m.length + 1 := by
  have h := congrArg List.length (mapKeys_insertEntry m c g)
  rw [mapKeys, List.length_map] at h
  by_cases hc : c ∈ mapKeys m
  · rw [if_pos hc] at h ⊢
    rw [h, mapKeys, List.length_map]
  · rw [if_neg hc] at h ⊢
    rw [h, List.length_append, mapKeys, List.length_map, List.length_singleton]

theorem mem_insertEntry (m : List (Char × Glyph)) (c : Char) (g : Glyph)
    (q : Char × Glyph) (hq : q ∈ insertEntry m c g) : q = (c, g) ∨ q ∈ m := by
  induction m with
  | nil =>
    rw [insertEntry] at hq
    exact Or.inl (List.mem_singleton.mp hq)
  | cons p m ih =>
    rw [insertEntry] at hq
    by_cases hpc : p.1 = c
    · rw [if_pos hpc] at hq
      rcases List.mem_cons.mp hq with rfl | h
      · exact Or.inl rfl
      · exact Or.inr (List.mem_cons_of_mem _ h)
    · rw [if_neg hpc] at hq
      rcases List.mem_cons.mp hq with rfl | h
      · exact Or.inr (List.mem_cons_self _ _)
      · rcases ih h with h' | h'
        · exact Or.inl h'
        · exact Or.inr (List.mem_cons_of_mem _ h')

/-! ### Helper lemmas: the accumulated character map -/

theorem render_loop_snd (ok : Char → Bool) (cs : List Char) (columns : Nat) :
    (render_loop ok cs columns).2 =
      buildMap columns (imageWidth columns) (imageHeight cs.length columns)
        [] cs.enum := by
  rw [render_loop]
  generalize cs.enum = es
  generalize imageWidth columns = w
  generalize imageHeight cs.length columns = h
  suffices hgen : ∀ (es : List (Nat × Char)) (d : List Char) (m : List (Char × Glyph)),
      (es.foldl (fun acc p =>
        ((if ok p.2 then acc.1 ++ [p.2] else acc.1),
          insertEntry acc.2 p.2 (mkGlyph p.1 columns w h))) (d, m)).2 =
        buildMap columns w h m es from hgen es [] []
  intro es
  induction es with
  | nil =>
    intro d m
    rfl
  | cons e es ih =>
    intro d m
    rw [List.foldl_cons, buildMap]
    exact ih _ _

theorem mapLookup_buildMap (k w h : Nat) (es : List (Nat × Char)) :
    ∀ (m : List (Char × Glyph)) (d : Char),
      mapLookup (buildMap k w h m es) d =
        match es.reverse.find? (fun e => e.2 == d) with
        | some e => some (mkGlyph e.1 k w h)
        | none => mapLookup m d := by
  induction es with
  | nil =>
    intro m d
    rfl
  | cons e es ih =>
    intro m d
    rw [buildMap, ih, List.reverse_cons, List.find?_append]
    cases hfind : es.reverse.find? (fun e => e.2 == d) with
    | some e' => simp only [Option.or]
    | none =>
      simp only [Option.or]
      by_cases hde : e.2 = d
      · rw [List.find?_cons_of_pos _ (by simp [hde]), mapLookup_insertEntry,
          if_pos hde.symm]
      · rw [List.find?_cons_of_neg _ (by simp [hde]), List.find?_nil,
          mapLookup_insertEntry, if_neg (fun hcontr => hde hcontr.symm)]

theorem mem_mapKeys_buildMap (k w h : Nat) (es : List (Nat × Char)) :
    ∀ (m : List (Char × Glyph)) (d : Char),
      d ∈ mapKeys (buildMap k w h m es) ↔ d ∈ mapKeys m ∨ d ∈ es.map Prod.snd := by
  induction es with
  | nil =>
    intro m d
    simp [buildMap]
  | cons e es ih =>
    intro m d
    rw [buildMap, ih, mem_mapKeys_insertEntry, List.map_cons, List.mem_cons]
    tauto

theorem nodup_mapKeys_buildMap (k w h : Nat) (es : List (Nat × Char)) :
    ∀ (m : List (Char × Glyph)), (mapKeys m).Nodup →
      (mapKeys (buildMap k w h m es)).Nodup := by
  induction es with
  | nil =>
    intro m hm
    exact hm
  | cons e es ih =>
    intro m hm
    rw [buildMap]
    exact ih _ (nodup_mapKeys_insertEntry _ _ _ hm)

theorem mem_buildMap (k w h : Nat) (es : List (Nat × Char)) :
    ∀ (m : List (Char × Glyph)) (q : Char × Glyph), q ∈ buildMap k w h m es →
      q ∈ m ∨ ∃ e, e ∈ es ∧ q = (e.2, mkGlyph e.1 k w h) := by
  induction es with
  | nil =>
    intro m q hq
    exact Or.inl hq
  | cons e es ih =>
    intro m q hq
    rw [buildMap] at hq
    rcases ih _ _ hq with h | ⟨e', he', rfl⟩
    · rcases mem_insertEntry _ _ _ _ h with rfl | h'
      · exact Or.inr ⟨e, List.mem_cons_self _ _, rfl⟩
      · exact Or.inl h'
    · exact Or.inr ⟨e', List.mem_cons_of_mem _ he', rfl⟩

theorem characterMapList_eq (cs : List Char) (columns : Nat) :
    characterMapList cs columns =
      buildMap columns (imageWidth columns) (imageHeight cs.length columns)
        [] cs.enum :=
  render_loop_snd _ cs columns

theorem mapKeys_characterMapList_nodup (cs : List Char) (columns : Nat) :
    (mapKeys (characterMapList cs columns)).Nodup := by
  rw [characterMapList_eq]
  exact nodup_mapKeys_buildMap _ _ _ _ _ List.nodup_nil

theorem mem_mapKeys_characterMapList (cs : List Char) (columns : Nat) (d : Char) :
    d ∈ mapKeys (characterMapList cs columns) ↔ d ∈ cs := by
  rw [characterMapList_eq, mem_mapKeys_buildMap, List.enum_map_snd]
  constructor
  · rintro (h | h)
    · exact absurd h (List.not_mem_nil d)
    · exact h
  · exact Or.inr

theorem length_characterMapList (cs : List Char) (columns : Nat) :
    (characterMapList cs columns).length = cs.dedup.length := by
  have hnd := mapKeys_characterMapList_nodup cs columns
  have hlen : (characterMapList cs columns).length =
      (mapKeys (characterMapList cs columns)).length := by
    rw [mapKeys, List.length_map]
  have hfin : (mapKeys (characterMapList cs columns)).toFinset = cs.toFinset := by
    ext x
    rw [List.mem_toFinset, List.mem_toFinset, mem_mapKeys_characterMapList]
  rw [hlen, ← List.toFinset_card_of_nodup hnd, hfin, List.card_toFinset]

theorem mapLookup_characterMapList (cs : List Char) (columns : Nat) (d : Char) :
    mapLookup (characterMapList cs columns) d =
      match cs.enum.reverse.find? (fun e => e.2 == d) with
      | some e => some (mkGlyph e.1 columns (imageWidth columns)
          (imageHeight cs.length columns))
      | none => none := by
  rw [characterMapList_eq, mapLookup_buildMap]
  cases cs.enum.reverse.find? (fun e => e.2 == d) with
  | some e => rfl
  | none => rfl

theorem mem_characterMapList (cs : List Char) (columns : Nat) (q : Char × Glyph)
    (hq : q ∈ characterMapList cs columns) :
    ∃ i, i < cs.length ∧
      q.2 = mkGlyph i columns (imageWidth columns) (imageHeight cs.length columns) := by
  rw [characterMapList_eq] at hq
  rcases mem_buildMap _ _ _ _ _ _ hq with h | ⟨e, he, rfl⟩
  · exact absurd h (List.not_mem_nil q)
  · have hget := List.mem_enum_iff_get?.mp he
    rcases List.get?_eq_some.mp hget with ⟨hlt, _⟩
    exact ⟨e.1, hlt, rfl⟩

theorem dedup_length_lt (cs : List Char) (hdup : ¬ cs.Nodup) :
    cs.dedup.length < cs.length := by
  have hsub := List.dedup_sublist cs
  rcases lt_or_eq_of_le (List.Sublist.length_le hsub) with h | h
  · exact h
  · exact absurd (by rw [← List.Sublist.eq_of_length hsub h]; exact cs.nodup_dedup)
      hdup

/-! ### Claims about grid geometry and the character map -/

/-- Claim C3: for every character set and columns >= 1, the generated grid
geometry satisfies rows == ceil(character_count / columns),
image_width == columns * cell_size and image_height == rows * cell_size,
with cell_size = 16 and character_count the length of the character set. -/
theorem C3_grid_geometry (renderOk : Char → Bool) (cs : List Char)
    (columns size : Nat) (hc : 1 ≤ columns) :
    (generate_metadata renderOk cs columns size).rows =
        (cs.length + columns - 1) / columns ∧
    ((generate_metadata renderOk cs columns size).rows : ℤ) =
        Int.ceil ((cs.length : ℚ) / (columns : ℚ)) ∧
    (generate_metadata renderOk cs columns size).image_width =
        columns * CELL_SIZE ∧
    (generate_metadata renderOk cs columns size).image_height =
        (generate_metadata renderOk cs columns size).rows * CELL_SIZE ∧
    (generate_metadata renderOk cs columns size).character_count = cs.length ∧
    CELL_SIZE = 16 := by
  refine ⟨numRows_eq cs.length columns hc, ?_, rfl, rfl, rfl, rfl⟩
  show ((numRows cs.length columns : ℕ) : ℤ) = _
  rw [numRows]
  exact Int.toNat_of_nonneg (Int.ceil_nonneg (by positivity))

/-- Witness for C3 at the spec's concrete instance: two characters in ten
columns give one row of a 160x16 image. -/
theorem C3_witness :
    1 ≤ 10 ∧
    (generate_metadata (fun _ => true) ['A', 'B'] 10 12).rows = 1 ∧
    (generate_metadata (fun _ => true) ['A', 'B'] 10 12).image_width = 160 ∧
    (generate_metadata (fun _ => true) ['A', 'B'] 10 12).image_height = 16 := by
  have h := C3_grid_geometry (fun _ => true) ['A', 'B'] 10 12 (by decide)
  refine ⟨by decide, ?_, ?_, ?_⟩
  · rw [h.1]
    decide
  · rw [h.2.2.1]
    decide
  · rw [h.2.2.2.1, h.1]
    decide

/-- Claim C6: a repeated character keeps exactly one entry in the emitted
character_map, carrying the metadata of its last occurrence (last-write-wins);
in particular for the character set "AA" the map has exactly one entry for
"A", with the index-1 metadata. -/
theorem C6_last_write_wins (cs : List Char) (columns : Nat) (c : Char) :
    (mapLookup (characterMapList cs columns) c =
      match cs.enum.reverse.find? (fun e => e.2 == c) with
      | some e => some (mkGlyph e.1 columns (imageWidth columns)
          (imageHeight cs.length columns))
      | none => none) ∧
    (mapKeys (characterMapList cs columns)).count c = (if c ∈ cs then 1 else 0) ∧
    mapKeys (characterMapList ['A', 'A'] 10) = ['A'] ∧
    mapLookup (characterMapList ['A', 'A'] 10) 'A' =
      some (mkGlyph 1 10 (imageWidth 10) (imageHeight 2 10)) := by
  refine ⟨mapLookup_characterMapList cs columns c, ?_, by rfl, by rfl⟩
  by_cases hmem : c ∈ cs
  · rw [if_pos hmem]
    exact List.count_eq_one_of_mem (mapKeys_characterMapList_nodup cs columns)
      ((mem_mapKeys_characterMapList cs columns c).mpr hmem)
  · rw [if_neg hmem]
    exact List.count_eq_zero.mpr
      (fun h => hmem ((mem_mapKeys_characterMapList cs columns c).mp h))

/-- Claim C9: a per-glyph draw failure never removes or alters a character's
metadata entry: the emitted character_map does not depend on which draw calls
succeed, and every character of the set has an entry. -/
theorem C9_render_failure_keeps_metadata (renderOk : Char → Bool)
    (cs : List Char) (columns size : Nat) (c : Char) (hc : c ∈ cs) :
    (generate_metadata renderOk cs columns size).character_map =
      (generate_metadata (fun _ => true) cs columns size).character_map ∧
    c ∈ mapKeys ((generate_metadata renderOk cs columns size).character_map) := by
  constructor
  · show (render_loop renderOk cs columns).2 = (render_loop (fun _ => true) cs columns).2
    rw [render_loop_snd, render_loop_snd]
  · show c ∈ mapKeys ((render_loop renderOk cs columns).2)
    rw [render_loop_snd, ← characterMapList_eq]
    exact (mem_mapKeys_characterMapList cs columns c).mpr hc

/-- Witness for C9: with a draw oracle that always fails, the character "A"
still receives its metadata entry. -/
theorem C9_witness :
    (generate_metadata (fun _ => false) ['A'] 10 12).character_map =
      (generate_metadata (fun _ => true) ['A'] 10 12).character_map ∧
    'A' ∈ mapKeys ((generate_metadata (fun _ => false) ['A'] 10 12).character_map) :=
  C9_render_failure_keeps_metadata (fun _ => false) ['A'] 10 12 'A'
    (List.mem_singleton.mpr rfl)

/-- Claim C10: the emitted character_count equals the length of the input
character sequence, duplicates included, so with duplicates present it
strictly exceeds the number of character_map entries. -/
theorem C10_character_count (renderOk : Char → Bool) (cs : List Char)
    (columns size : Nat) (hdup : ¬ cs.Nodup) :
    (generate_metadata renderOk cs columns size).character_count = cs.length ∧
    (generate_metadata renderOk cs columns size).character_map.length <
      cs.length := by
  refine ⟨rfl, ?_⟩
  show (render_loop renderOk cs columns).2.length < cs.length
  rw [render_loop_snd, ← characterMapList_eq, length_characterMapList]
  exact dedup_length_lt cs hdup

/-- Witness for C10 at the spec's concrete instance "AA". -/
theorem C10_witness :
    (generate_metadata (fun _ => true) ['A', 'A'] 10 12).character_count = 2 ∧
    (generate_metadata (fun _ => true) ['A', 'A'] 10 12).character_map.length < 2 :=
  C10_character_count (fun _ => true) ['A', 'A'] 10 12 (by decide)

/-! ### Claims about the size fitter -/

/-- Claim C1: for a scalable font path, the fitter iterates candidate sizes
strictly decreasing from initial_size down to 5 inclusive, accepts the first
(largest) candidate size that loads and whose probe maxima are both within
cell_size - 4, and if no candidate in the range succeeds it falls back to a
hard floor size of 8, degrading to the default font at size 8 when even that
load fails. -/
theorem C1_size_fitter_search (o : FontOracle) (initial target : Nat) :
    (∀ s, s ∈ candidate_sizes initial → goodSize o target s = true →
      (∀ t, t ∈ candidate_sizes initial → s < t → goodSize o target t = false) →
      calculate_optimal_font_size o true initial target = (.truetype s, s)) ∧
    ((∀ s, s ∈ candidate_sizes initial → goodSize o target s = false) →
      calculate_optimal_font_size o true initial target =
        (if o.loadOk 8 then (.truetype 8, 8) else (.defaultFont, 8))) ∧
    (∀ s, s ∈ candidate_sizes initial ↔ (5 ≤ s ∧ s ≤ initial)) := by
  refine ⟨?_, ?_, fun s => mem_candidate_sizes initial s⟩
  · intro s hmem hp hmax
    rw [calculate_optimal_font_size, if_pos rfl,
      find?_candidate_sizes (goodSize o target) s initial hmem hp hmax]
  · intro hall
    rw [calculate_optimal_font_size, if_pos rfl,
      find?_candidate_sizes_none (goodSize o target) initial hall]

/-- Witness for C1: a font fitting up to size 10 is resolved to size 10 from
an initial size of 12. -/
theorem C1_witness :
    10 ∈ candidate_sizes 12 ∧ goodSize fitOracle 16 10 = true ∧
    calculate_optimal_font_size fitOracle true 12 16 = (.truetype 10, 10) := by
  have hmem : 10 ∈ candidate_sizes 12 := by
    rw [mem_candidate_sizes]
    decide
  have hg : goodSize fitOracle 16 10 = true := by decide
  refine ⟨hmem, hg, (C1_size_fitter_search fitOracle 12 16).1 10 hmem hg ?_⟩
  intro t ht hlt
  obtain ⟨hb1, hb2⟩ := (mem_candidate_sizes 12 t).mp ht
  interval_cases t
  · decide
  · decide

/-- Claim C2 (corrected): when some candidate size in the search range loads
and fits, the fitter returns such a size, whose measured probe bounding box
is within cell_size - 4 in both dimensions. Unconditionally the claim is
false: when nothing fits, the floor-8 fallback returns size 8 even though its
probe bounding box exceeds the limit (see the counterexample). -/
theorem C2_fit_on_loop_success (o : FontOracle) (initial target : Nat)
    (h : ∃ s, s ∈ candidate_sizes initial ∧ goodSize o target s = true) :
    fitsAt o (calculate_optimal_font_size o true initial target).2
        ((target : ℤ) - 4) = true ∧
    (calculate_optimal_font_size o true initial target).1 =
      .truetype (calculate_optimal_font_size o true initial target).2 := by
  obtain ⟨s, hs, hp⟩ := h
  have hsome : ((candidate_sizes initial).find? (goodSize o target)).isSome = true := by
    rw [List.find?_isSome]
    exact ⟨s, hs, hp⟩
  obtain ⟨t, ht⟩ := Option.isSome_iff_exists.mp hsome
  have hgt : goodSize o target t = true := List.find?_some ht
  have hfits : fitsAt o t ((target : ℤ) - 4) = true :=
    ((Bool.and_eq_true _ _).mp hgt).2
  rw [calculate_optimal_font_size, if_pos rfl, ht]
  exact ⟨hfits, rfl⟩

/-- Witness for C2: the fitting font of the C1 witness is returned with a
probe bounding box inside the limit. -/
theorem C2_witness :
    fitsAt fitOracle (calculate_optimal_font_size fitOracle true 12 16).2
        ((16 : ℤ) - 4) = true ∧
    (calculate_optimal_font_size fitOracle true 12 16).1 =
      .truetype (calculate_optimal_font_size fitOracle true 12 16).2 :=
  C2_fit_on_loop_success fitOracle 12 16
    ⟨10, by rw [mem_candidate_sizes]; decide, by decide⟩

/-- Counterexample to C2 as stated: for a font whose probe glyphs always
measure 100x100, the fitter returns size 8 whose probe bounding box exceeds
cell_size - 4 = 12. -/
theorem C2_counterexample :
    calculate_optimal_font_size bigOracle true 12 16 = (.truetype 8, 8) ∧
    fitsAt bigOracle 8 ((16 : ℤ) - 4) = false := by
  constructor
  · rw [calculate_optimal_font_size, if_pos rfl,
      show candidate_sizes 12 = [12, 11, 10, 9, 8, 7, 6, 5] by
        simp [candidate_sizes]]
    decide
  · decide

/-- Claim C7 (corrected): at each candidate size the fitter measures exactly
the first 10 characters of its test string - the uppercase letters A to J -
with the font's measurement oracle and takes the maxima of their widths and
heights. The probe is not the representative mix the claim describes: it
contains no digit and no descender glyph (see the counterexample). -/
theorem C7_probe_set (o : FontOracle) (size : Nat) (c : Char)
    (hc : c ∈ probeChars) :
    probeChars.length = 10 ∧
    probeChars = ['A', 'B', 'C', 'D', 'E', 'F', 'G', 'H', 'I', 'J'] ∧
    (∀ ch ∈ probeChars, ch.isUpper = true) ∧
    o.bboxW size c ≤ maxProbeWidth o size ∧
    o.bboxH size c ≤ maxProbeHeight o size := by
  refine ⟨by decide, by decide, by decide, ?_, ?_⟩
  · exact le_foldl_max _ 0 _ (List.mem_map_of_mem (o.bboxW size) hc)
  · exact le_foldl_max _ 0 _ (List.mem_map_of_mem (o.bboxH size) hc)

/-- Witness for C7 at a concrete oracle and probe character. -/
theorem C7_witness :
    probeChars.length = 10 ∧
    probeChars = ['A', 'B', 'C', 'D', 'E', 'F', 'G', 'H', 'I', 'J'] ∧
    (∀ ch ∈ probeChars, ch.isUpper = true) ∧
    fitOracle.bboxW 12 'A' ≤ maxProbeWidth fitOracle 12 ∧
    fitOracle.bboxH 12 'A' ≤ maxProbeHeight fitOracle 12 :=
  C7_probe_set fitOracle 12 'A' (by decide)

/-- Counterexample to C7 as stated: the measured probe subset contains no
digit at all (and consists solely of uppercase letters, so it has no
descender-heavy glyph either). -/
theorem C7_counterexample :
    probeChars.length = 10 ∧
    probeChars.any (fun c => c.isDigit) = false ∧
    probeChars.all (fun c => c.isUpper) = true := by
  decide

/-! ### Claims about the font locator -/

theorem find?_of_first {α : Type} (l : List α) (p : α → Bool) :
    ∀ (i : Nat) (x : α), l.get? i = some x → p x = true →
      (l.take i).all (fun a => !(p a)) = true → l.find? p = some x := by
  induction l with
  | nil =>
    intro i x h _ _
    rw [List.get?_nil] at h
    exact absurd h (by simp)
  | cons a t ih =>
    intro i x hget hx hall
    cases i with
    | zero =>
      rw [List.get?_cons_zero] at hget
      injection hget with h
      subst h
      exact List.find?_cons_of_pos _ hx
    | succ j =>
      rw [List.get?_cons_succ] at hget
      rw [List.take_succ_cons, List.all_cons, Bool.and_eq_true] at hall
      have hpa : p a = false := by
        have h1 := hall.1
        rwa [Bool.not_eq_true'] at h1
      rw [List.find?_cons_of_neg _ (by rw [hpa]; exact Bool.false_ne_true)]
      exact ih j x hget hx hall.2

/-- Claim C8: an existing file path is returned directly; otherwise the
ordered candidate list is probed and the first existing path is returned
with no further candidates tried; if no candidate exists, exactly one warning
is emitted and the default font is returned, failing only when the default
font itself cannot be loaded. -/
theorem C8_font_locator (fsExists : String → Bool) (defaultOk : Bool)
    (name : String) :
    (fsExists name = true →
      find_system_font fsExists defaultOk name = (.path name, 0)) ∧
    (∀ i p, fsExists name = false → (font_paths name).get? i = some p →
      fsExists p = true →
      ((font_paths name).take i).all (fun q => !(fsExists q)) = true →
      find_system_font fsExists defaultOk name = (.path p, 0)) ∧
    (fsExists name = false →
      (font_paths name).all (fun q => !(fsExists q)) = true →
      find_system_font fsExists defaultOk name =
        (if defaultOk then (.defaultFont, 1)
         else (.failure ("Could not find font: " ++ name), 1))) := by
  refine ⟨?_, ?_, ?_⟩
  · intro h
    rw [find_system_font, if_pos h]
  · intro i p h hget hp hall
    rw [find_system_font, if_neg (by rw [h]; exact Bool.false_ne_true),
      find?_of_first (font_paths name) fsExists i p hget hp hall]
  · intro h hall
    have hnone : (font_paths name).find? fsExists = none := by
      rw [List.find?_eq_none]
      intro x hx
      have hx' := (List.all_eq_true.mp hall) x hx
      rw [Bool.not_eq_true'] at hx'
      rw [hx']
      exact Bool.false_ne_true
    rw [find_system_font, if_neg (by rw [h]; exact Bool.false_ne_true), hnone]

/-- Witness for C8: on a filesystem where only the third candidate path
exists, the locator resolves to it. -/
theorem C8_witness :
    find_system_font fooFS true "Foo" =
      (.path "/usr/share/fonts/TTF/Foo.ttf", 0) :=
  (C8_font_locator fooFS true "Foo").2.1 2 "/usr/share/fonts/TTF/Foo.ttf"
    (by decide) (by decide) (by decide) (by decide)

/-! ### Claims about UV metadata -/

theorem round6_cell_bounds (a b : Nat) (hab : a < b) (hb : b ≤ 1000000) :
    0 ≤ round6 (((a * CELL_SIZE : Nat) : ℚ) / ((b * CELL_SIZE : Nat) : ℚ)) ∧
    round6 (((a * CELL_SIZE : Nat) : ℚ) / ((b * CELL_SIZE : Nat) : ℚ)) <
      round6 (((a * CELL_SIZE + CELL_SIZE : Nat) : ℚ) / ((b * CELL_SIZE : Nat) : ℚ)) ∧
    round6 (((a * CELL_SIZE + CELL_SIZE : Nat) : ℚ) / ((b * CELL_SIZE : Nat) : ℚ)) ≤ 1 ∧
    |(round6 (((a * CELL_SIZE + CELL_SIZE : Nat) : ℚ) / ((b * CELL_SIZE : Nat) : ℚ)) -
        round6 (((a * CELL_SIZE : Nat) : ℚ) / ((b * CELL_SIZE : Nat) : ℚ))) -
      (CELL_SIZE : ℚ) / ((b * CELL_SIZE : Nat) : ℚ)| ≤ 1 / 1000000 := by
  have hb0 : (0 : ℚ) < (b : ℚ) := by exact_mod_cast Nat.zero_lt_of_lt hab
  have hbne : (b : ℚ) ≠ 0 := ne_of_gt hb0
  have e0 : ((a * CELL_SIZE : Nat) : ℚ) / ((b * CELL_SIZE : Nat) : ℚ) =
      (a : ℚ) / (b : ℚ) := by
    push_cast [CELL_SIZE]
    exact mul_div_mul_right _ _ (by norm_num)
  have e1 : ((a * CELL_SIZE + CELL_SIZE : Nat) : ℚ) / ((b * CELL_SIZE : Nat) : ℚ) =
      ((a : ℚ) + 1) / (b : ℚ) := by
    push_cast [CELL_SIZE]
    rw [show ((a : ℚ) * 16 + 16) = ((a : ℚ) + 1) * 16 by ring]
    exact mul_div_mul_right _ _ (by norm_num)
  have e2 : (CELL_SIZE : ℚ) / ((b * CELL_SIZE : Nat) : ℚ) = 1 / (b : ℚ) := by
    push_cast [CELL_SIZE]
    rw [show (16 : ℚ) = 1 * 16 by ring, mul_comm (b : ℚ) (1 * 16),
      show (1 : ℚ) * 16 * (b : ℚ) = (b : ℚ) * 16 by ring]
    exact mul_div_mul_right _ _ (by norm_num)
  rw [e0, e1, e2]
  have hx0 : (0 : ℚ) ≤ (a : ℚ) / (b : ℚ) := by positivity
  have hy1 : ((a : ℚ) + 1) / (b : ℚ) ≤ 1 := by
    rw [div_le_one hb0]
    have : (a : ℚ) + 1 ≤ (b : ℚ) := by
      have hab' : a + 1 ≤ b := hab
      exact_mod_cast hab'
    linarith
  have hgap : (a : ℚ) / (b : ℚ) + 1 / 1000000 ≤ ((a : ℚ) + 1) / (b : ℚ) := by
    have hsub : ((a : ℚ) + 1) / (b : ℚ) - (a : ℚ) / (b : ℚ) = 1 / (b : ℚ) := by
      rw [div_sub_div_same]
      ring_nf
    have hinv : 1 / 1000000 ≤ 1 / (b : ℚ) := by
      apply one_div_le_one_div_of_le hb0
      exact_mod_cast hb
    linarith
  refine ⟨?_, ?_, ?_, ?_⟩
  · have h := round6_le_round6 hx0
    rwa [round6_zero] at h
  · exact round6_lt_round6 hgap
  · have h := round6_le_round6 hy1
    rwa [round6_one] at h
  · have h1 := abs_round6_sub ((a : ℚ) / (b : ℚ))
    have h2 := abs_round6_sub (((a : ℚ) + 1) / (b : ℚ))
    have hsub : ((a : ℚ) + 1) / (b : ℚ) - (a : ℚ) / (b : ℚ) = 1 / (b : ℚ) := by
      rw [div_sub_div_same]
      ring_nf
    rw [abs_le] at h1 h2 ⊢
    constructor <;> nlinarith [h1.1, h1.2, h2.1, h2.2]

/-- Claim C4 (corrected): for every non-empty character set and columns >= 1,
as long as columns ≤ 10^6 and the character count is at most columns * 10^6
(so that neither UV step falls below the 6-decimal rounding resolution),
every emitted character_map entry satisfies 0 ≤ u0 < u1 ≤ 1 and
0 ≤ v0 < v1 ≤ 1, with u1 - u0 within 10^-6 of cell_size / image_width.
Without the bounds the claim is false (see the counterexample): for
columns = 10^7 the rounded u0 and u1 of the first cell coincide. -/
theorem C4_uv_bounds (cs : List Char) (columns : Nat) (hc : 1 ≤ columns)
    (hcbound : columns ≤ 1000000) (hnbound : cs.length ≤ columns * 1000000)
    (q : Char × Glyph) (hq : q ∈ characterMapList cs columns) :
    0 ≤ q.2.u0 ∧ q.2.u0 < q.2.u1 ∧ q.2.u1 ≤ 1 ∧
    0 ≤ q.2.v0 ∧ q.2.v0 < q.2.v1 ∧ q.2.v1 ≤ 1 ∧
    |(q.2.u1 - q.2.u0) - (CELL_SIZE : ℚ) / ((imageWidth columns : Nat) : ℚ)| ≤
      1 / 1000000 := by
  obtain ⟨i, hi, hglyph⟩ := mem_characterMapList cs columns q hq
  have hrowlt : i / columns < numRows cs.length columns :=
    lt_numRows_mul cs.length columns i hc hi
  have hrowle : numRows cs.length columns ≤ 1000000 :=
    numRows_le cs.length columns 1000000 hc hnbound
  have hu := round6_cell_bounds (i % columns) columns
    (Nat.mod_lt i (by omega)) hcbound
  have hv := round6_cell_bounds (i / columns) (numRows cs.length columns)
    hrowlt hrowle
  rw [hglyph, mkGlyph]
  show 0 ≤ round6 _ ∧ _
  refine ⟨hu.1, hu.2.1, hu.2.2.1, hv.1, hv.2.1, hv.2.2.1, hu.2.2.2⟩

/-- Witness for C4 at the first entry of the "AB" sheet. -/
theorem C4_witness :
    0 ≤ (mkGlyph 0 10 (imageWidth 10) (imageHeight 2 10)).u0 ∧
    (mkGlyph 0 10 (imageWidth 10) (imageHeight 2 10)).u0 <
      (mkGlyph 0 10 (imageWidth 10) (imageHeight 2 10)).u1 ∧
    (mkGlyph 0 10 (imageWidth 10) (imageHeight 2 10)).u1 ≤ 1 ∧
    0 ≤ (mkGlyph 0 10 (imageWidth 10) (imageHeight 2 10)).v0 ∧
    (mkGlyph 0 10 (imageWidth 10) (imageHeight 2 10)).v0 <
      (mkGlyph 0 10 (imageWidth 10) (imageHeight 2 10)).v1 ∧
    (mkGlyph 0 10 (imageWidth 10) (imageHeight 2 10)).v1 ≤ 1 ∧
    |((mkGlyph 0 10 (imageWidth 10) (imageHeight 2 10)).u1 -
        (mkGlyph 0 10 (imageWidth 10) (imageHeight 2 10)).u0) -
      (CELL_SIZE : ℚ) / ((imageWidth 10 : Nat) : ℚ)| ≤ 1 / 1000000 :=
  C4_uv_bounds ['A', 'B'] 10 (by decide) (by decide) (by decide)
    ('A', mkGlyph 0 10 (imageWidth 10) (imageHeight 2 10))
    (List.mem_cons_self _ _)

/-- Counterexample to C4 as stated: with a single character and 10^7
columns, the stored u0 and u1 of the cell both round to 0, so u0 < u1 fails
for an entry of the emitted map. -/
theorem C4_counterexample :
    (characterMapList ['A'] 10000000).all
      (fun p => decide (p.2.u0 < p.2.u1)) = false := by
  have hmap : characterMapList ['A'] 10000000 =
      [('A', mkGlyph 0 10000000 (imageWidth 10000000) (imageHeight 1 10000000))] :=
    rfl
  rw [hmap]
  simp only [List.all_cons, List.all_nil, Bool.and_true]
  rw [decide_eq_false_iff_not, mkGlyph]
  have h0 : round6 ((((0 % 10000000) * CELL_SIZE : Nat) : ℚ) /
      ((imageWidth 10000000 : Nat) : ℚ)) = 0 := by
    norm_num [round6, round_eq, CELL_SIZE, imageWidth]
  have h1 : round6 ((((0 % 10000000) * CELL_SIZE + CELL_SIZE : Nat) : ℚ) /
      ((imageWidth 10000000 : Nat) : ℚ)) = 0 := by
    norm_num [round6, round_eq, CELL_SIZE, imageWidth]
  show ¬ (round6 _ < round6 _)
  rw [h0, h1]
  exact lt_irrefl 0

/-- Claim C5: the character at position i receives grid index i, pixel cell
origin x = (i mod columns) * cell_size, y = (i div columns) * cell_size, and
stored UVs equal to the pixel ratios u0 = x/image_width,
u1 = (x+cell_size)/image_width (same pattern for v with image_height),
rounded to 6 decimal digits; in particular for character_set "AB" with
columns = 10: rows = 1, the image is 160x16, A has index 0 at (0,0), B has
index 1 at (16,0), and B's u0 = 0.1 and u1 = 0.2. -/
theorem C5_row_major_assignment (cs : List Char) (columns i : Nat)
    (hcol : 1 ≤ columns) (hi : i < cs.length) :
    cs.enum.get? i = some (i, cs.get ⟨i, hi⟩) ∧
    (mkGlyph i columns (imageWidth columns) (imageHeight cs.length columns)).index
        = i ∧
    (mkGlyph i columns (imageWidth columns) (imageHeight cs.length columns)).x =
        (i % columns) * CELL_SIZE ∧
    (mkGlyph i columns (imageWidth columns) (imageHeight cs.length columns)).y =
        (i / columns) * CELL_SIZE ∧
    (mkGlyph i columns (imageWidth columns) (imageHeight cs.length columns)).u0 =
        round6 ((((i % columns) * CELL_SIZE : Nat) : ℚ) /
          ((imageWidth columns : Nat) : ℚ)) ∧
    (mkGlyph i columns (imageWidth columns) (imageHeight cs.length columns)).u1 =
        round6 ((((i % columns) * CELL_SIZE + CELL_SIZE : Nat) : ℚ) /
          ((imageWidth columns : Nat) : ℚ)) ∧
    (mkGlyph i columns (imageWidth columns) (imageHeight cs.length columns)).v0 =
        round6 ((((i / columns) * CELL_SIZE : Nat) : ℚ) /
          ((imageHeight cs.length columns : Nat) : ℚ)) ∧
    (mkGlyph i columns (imageWidth columns) (imageHeight cs.length columns)).v1 =
        round6 ((((i / columns) * CELL_SIZE + CELL_SIZE : Nat) : ℚ) /
          ((imageHeight cs.length columns : Nat) : ℚ)) ∧
    numRows 2 10 = 1 ∧ imageWidth 10 = 160 ∧ imageHeight 2 10 = 16 ∧
    mapLookup (characterMapList ['A', 'B'] 10) 'A' =
      some { index := 0, x := 0, y := 0, u0 := 0, v0 := 0, u1 := 0.1, v1 := 1 } ∧
    mapLookup (characterMapList ['A', 'B'] 10) 'B' =
      some { index := 1, x := 16, y := 0, u0 := 0.1, v0 := 0, u1 := 0.2, v1 := 1 } := by
  have hrows : numRows 2 10 = 1 := by
    rw [numRows_eq 2 10 (by decide)]
  have hih : imageHeight 2 10 = 16 := by
    rw [imageHeight, hrows]
    decide
  have hiw : imageWidth 10 = 160 := rfl
  have hA : mapLookup (characterMapList ['A', 'B'] 10) 'A' =
      some (mkGlyph 0 10 (imageWidth 10) (imageHeight 2 10)) := rfl
  have hB : mapLookup (characterMapList ['A', 'B'] 10) 'B' =
      some (mkGlyph 1 10 (imageWidth 10) (imageHeight 2 10)) := rfl
  have hg0 : mkGlyph 0 10 (imageWidth 10) (imageHeight 2 10) =
      { index := 0, x := 0, y := 0, u0 := 0, v0 := 0, u1 := 0.1, v1 := 1 } := by
    rw [mkGlyph, hiw, hih]
    simp only [Glyph.mk.injEq]
    norm_num [CELL_SIZE, round6, round_eq]
  have hg1 : mkGlyph 1 10 (imageWidth 10) (imageHeight 2 10) =
      { index := 1, x := 16, y := 0, u0 := 0.1, v0 := 0, u1 := 0.2, v1 := 1 } := by
    rw [mkGlyph, hiw, hih]
    simp only [Glyph.mk.injEq]
    norm_num [CELL_SIZE, round6, round_eq]
  refine ⟨?_, rfl, rfl, rfl, rfl, rfl, rfl, rfl, hrows, hiw, hih, ?_, ?_⟩
  · rw [List.get?_enum, List.get?_eq_get hi]
    rfl
  · rw [hA, hg0]
  · rw [hB, hg1]

/-- Witness for C5 at position 1 of the character set "AB". -/
theorem C5_witness :
    (mkGlyph 1 10 (imageWidth 10) (imageHeight (['A', 'B'].length) 10)).index
        = 1 ∧
    mapLookup (characterMapList ['A', 'B'] 10) 'B' =
      some { index := 1, x := 16, y := 0, u0 := 0.1, v0 := 0, u1 := 0.2, v1 := 1 } := by
  have h := C5_row_major_assignment ['A', 'B'] 10 1 (by decide) (by decide)
  exact ⟨h.2.1, h.2.2.2.2.2.2.2.2.2.2.2.2⟩

end FontSheet
